import Mathlib

/-!
Shallow embedding of the robot-kinematics core of the repository
(DH transforms, forward kinematics, geometric Jacobian, Gaussian
elimination with partial pivoting, damped-least-squares IK).

The JavaScript source works with IEEE doubles and the library functions
`Math.cos`, `Math.sin`, `Math.sqrt`, `Math.abs`, `Math.min`, `Math.max`.
The embedding is parametric over a linearly ordered field `α` together
with abstract function parameters `fcos fsin fsqrt : α → α` standing for
the trigonometric/square-root library calls, so that every definition
stays executable and theorems quantify over the actual real-valued
interpretation as a special case.  `Math.abs`, `Math.min`, `Math.max`
are modelled exactly (`absA`, `min`, `max`).
-/

set_option allowUnsafeReducibility true

attribute [local semireducible] Rat.add Rat.mul Rat.inv Rat.sub Rat.div

namespace Kin

variable {α : Type} [LinearOrderedField α]

/-- `Math.abs` (source uses it in `solveLinear`). -/
def absA (x : α) : α := if x < 0 then -x else x

/-- 4x4 homogeneous matrix in row-major flat layout, field `mI` holding
what the source stores at flat index `I` of its 16-element array. -/
structure Mat4 (α : Type) where
  (m0 m1 m2 m3 : α)
  (m4 m5 m6 m7 : α)
  (m8 m9 m10 m11 : α)
  (m12 m13 m14 m15 : α)
deriving DecidableEq, Repr

/-- 3-vector, source representation `[x, y, z]`. -/
structure Vec3 (α : Type) where
  x : α
  y : α
  z : α
deriving DecidableEq, Repr

/-- `dhTransform(theta, d, a, alpha)` from the source, with the
`Math.cos`/`Math.sin` calls abstracted as `fcos`/`fsin`. -/
def dhTransform (fcos fsin : α → α) (theta d a alpha : α) : Mat4 α :=
  let ct := fcos theta; let st := fsin theta
  let ca := fcos alpha; let sa := fsin alpha
  ⟨ct, -st * ca,  st * sa, a * ct,
   st,  ct * ca, -ct * sa, a * st,
   0,   sa,       ca,      d,
   0,   0,        0,       1⟩

/-- `mat4Mul(A, B)`: `R[r*4+c] = Σ_k A[r*4+k]*B[k*4+c]`, unrolled. -/
def mat4Mul (A B : Mat4 α) : Mat4 α :=
  ⟨A.m0*B.m0 + A.m1*B.m4 + A.m2*B.m8 + A.m3*B.m12,
   A.m0*B.m1 + A.m1*B.m5 + A.m2*B.m9 + A.m3*B.m13,
   A.m0*B.m2 + A.m1*B.m6 + A.m2*B.m10 + A.m3*B.m14,
   A.m0*B.m3 + A.m1*B.m7 + A.m2*B.m11 + A.m3*B.m15,
   A.m4*B.m0 + A.m5*B.m4 + A.m6*B.m8 + A.m7*B.m12,
   A.m4*B.m1 + A.m5*B.m5 + A.m6*B.m9 + A.m7*B.m13,
   A.m4*B.m2 + A.m5*B.m6 + A.m6*B.m10 + A.m7*B.m14,
   A.m4*B.m3 + A.m5*B.m7 + A.m6*B.m11 + A.m7*B.m15,
   A.m8*B.m0 + A.m9*B.m4 + A.m10*B.m8 + A.m11*B.m12,
   A.m8*B.m1 + A.m9*B.m5 + A.m10*B.m9 + A.m11*B.m13,
   A.m8*B.m2 + A.m9*B.m6 + A.m10*B.m10 + A.m11*B.m14,
   A.m8*B.m3 + A.m9*B.m7 + A.m10*B.m11 + A.m11*B.m15,
   A.m12*B.m0 + A.m13*B.m4 + A.m14*B.m8 + A.m15*B.m12,
   A.m12*B.m1 + A.m13*B.m5 + A.m14*B.m9 + A.m15*B.m13,
   A.m12*B.m2 + A.m13*B.m6 + A.m14*B.m10 + A.m15*B.m14,
   A.m12*B.m3 + A.m13*B.m7 + A.m14*B.m11 + A.m15*B.m15⟩

/-- `mat4Identity()`. -/
def mat4Identity : Mat4 α :=
  ⟨1,0,0,0, 0,1,0,0, 0,0,1,0, 0,0,0,1⟩

/-- `mat4Pos(M) = [M[3], M[7], M[11]]`. -/
def mat4Pos (M : Mat4 α) : Vec3 α := ⟨M.m3, M.m7, M.m11⟩

/-- `mat4AxisZ(M) = [M[2], M[6], M[10]]`. -/
def mat4AxisZ (M : Mat4 α) : Vec3 α := ⟨M.m2, M.m6, M.m10⟩

/-- `v3Sub`. -/
def v3Sub (a b : Vec3 α) : Vec3 α := ⟨a.x - b.x, a.y - b.y, a.z - b.z⟩

/-- `v3Cross`. -/
def v3Cross (a b : Vec3 α) : Vec3 α :=
  ⟨a.y * b.z - a.z * b.y, a.z * b.x - a.x * b.z, a.x * b.y - a.y * b.x⟩

/-- `v3Len`, with `Math.sqrt` abstracted as `fsqrt`. -/
def v3Len (fsqrt : α → α) (v : Vec3 α) : α :=
  fsqrt (v.x * v.x + v.y * v.y + v.z * v.z)

/-- `List.map` with the element index, used to model indexed writes
`out[i] = f(i, in[i])` over an array of the input's length. -/
def idxMap {β : Type} (f : Nat → β → β) : Nat → List β → List β
  | _, [] => []
  | i, a :: as => f i a :: idxMap f (i + 1) as

/-! ## Linear system solver (`solveLinear`)

The augmented matrix `aug` is a list of `n` rows of length `n+1`
(`aug[i][0..n-1] = A[i*n+..]`, `aug[i][n] = b[i]`).  Out-of-range reads
use default `0` (resp. `[]`), matching the in-range behaviour of the
source for well-sized inputs. -/

/-- The source's fixed singularity threshold `1e-12`. -/
def eps : α := 1 / 1000000000000

/-- Entry `aug[r][c]` of the augmented matrix. -/
def entry (aug : List (List α)) (r c : Nat) : α :=
  (aug.getD r []).getD c 0

/-- Row of annotations built by the `aug` set-up loop:
`aug[i] = [A[i*n+0], …, A[i*n+(n-1)], b[i]]`. -/
def mkAug (A b : List α) (n : Nat) : List (List α) :=
  (List.range n).map (fun i =>
    (List.range n).map (fun j => A.getD (i * n + j) 0) ++ [b.getD i 0])

/-- Partial-pivot selection for column `col`: the first row index
`r ∈ [col, n)` maximising `|aug[r][col]|` (the source updates `mx` only
on a strictly greater magnitude). -/
def pivotRow (aug : List (List α)) (col n : Nat) : Nat :=
  ((List.range (n - (col + 1))).map (fun t => col + 1 + t)).foldl
    (fun mx r => if absA (entry aug mx col) < absA (entry aug r col) then r else mx)
    col

/-- `[aug[col], aug[mx]] = [aug[mx], aug[col]]`: both rows are read
before either is written. -/
def swapRows (aug : List (List α)) (i j : Nat) : List (List α) :=
  let ri := aug.getD i []
  let rj := aug.getD j []
  (aug.set i rj).set j ri

/-- One row's update in the inner elimination loop:
`f = row[col]/p`, then `row[j] -= f * prow[j]` for `j ∈ [col, n]`. -/
def reduceRow (prow : List α) (col n : Nat) (p : α) (row : List α) : List α :=
  let f := row.getD col 0 / p
  idxMap (fun j x => if col ≤ j ∧ j ≤ n then x - f * prow.getD j 0 else x) 0 row

/-- The elimination loop `for (r = col+1; r < n; r++)` after a usable
pivot `p` in column `col`: rows strictly between `col` and `n` are
reduced against the (unchanged) pivot row, all other rows kept. -/
def rowReduce (aug : List (List α)) (col n : Nat) (p : α) : List (List α) :=
  let prow := aug.getD col []
  idxMap (fun r row => if col < r ∧ r < n then reduceRow prow col n p row else row) 0 aug

/-- One column step of the forward-elimination loop: partial-pivot row
selection, row swap, then either skip (`|p| < 1e-12`, the `continue`)
or eliminate below the pivot. -/
def elimStep (aug : List (List α)) (col n : Nat) : List (List α) :=
  let mx := pivotRow aug col n
  let aug1 := swapRows aug col mx
  let p := entry aug1 col col
  if absA p < eps then aug1 else rowReduce aug1 col n p

/-- The full forward elimination `for (col = 0; col < n; col++)`. -/
def gaussElim (aug : List (List α)) (n : Nat) : List (List α) :=
  (List.range n).foldl (fun a col => elimStep a col n) aug

/-- Back substitution for rows `n-k … n-1` (the source's
`for (i = n-1; i >= 0; i--)` unwound from the bottom): returns
`[x_{n-k}, …, x_{n-1}]`.  `x_i` starts from `aug[i][n]`, subtracts
`aug[i][j]·x_j` for `j > i`, and is divided by the diagonal entry only
when `|aug[i][i]| > 1e-12`, otherwise set to `0`. -/
def backSubFrom (aug : List (List α)) (n : Nat) : Nat → List α
  | 0 => []
  | k + 1 =>
    let i := n - (k + 1)
    let xs := backSubFrom aug n k
    let row := aug.getD i []
    let s := row.getD n 0 -
      (List.zipWith (fun a x => a * x) ((row.drop (i + 1)).take k) xs).sum
    let xi := if eps < absA (row.getD i 0) then s / row.getD i 0 else 0
    xi :: xs

/-- `solveLinear(A, b, n)`: Gaussian elimination with partial pivoting
and the zero-fallback policy for near-singular pivots. -/
def solveLinear (A b : List α) (n : Nat) : List α :=
  backSubFrom (gaussElim (mkAug A b n) n) n n

/-! ## Robot model (`PRESETS`, `class Robot`) -/

/-- One entry of the `PRESETS` table: display name, DH rows `[d, a, alpha]`
(theta is the joint variable), and per-joint limits in degrees. -/
structure Preset (α : Type) where
  name : String
  dh : List (α × α × α)
  limits : List (α × α)

/-- The `PRESETS` table.  The source stores `Math.PI` multiples in the
`alpha` column; `pi` abstracts `Math.PI`. -/
def presets (pi : α) : List (String × Preset α) :=
  [("6dof",
    { name := "6-DOF Industrial",
      dh := [((40:α)/100, 0, pi/2), (0, (80:α)/100, 0), (0, (55:α)/100, 0),
             (0, 0, pi/2), ((38:α)/100, 0, -(pi/2)), ((18:α)/100, 0, 0)],
      limits := [(-180,180), (-135,135), (-150,150), (-180,180), (-120,120), (-180,180)] }),
   ("ur5",
    { name := "UR5-like",
      dh := [((89:α)/1000, 0, pi/2), (0, -((425:α)/1000), 0), (0, -((392:α)/1000), 0),
             ((109:α)/1000, 0, pi/2), ((95:α)/1000, 0, -(pi/2)), ((82:α)/1000, 0, 0)],
      limits := [(-360,360), (-360,360), (-360,360), (-360,360), (-360,360), (-360,360)] }),
   ("scara",
    { name := "4-DOF SCARA",
      dh := [((35:α)/100, 0, 0), (0, (70:α)/100, 0), (0, (50:α)/100, pi), ((20:α)/100, 0, 0)],
      limits := [(-135,135), (-135,135), (-180,180), (-180,180)] }),
   ("3link",
    { name := "3-Link Planar",
      dh := [(0, (80:α)/100, 0), (0, (60:α)/100, 0), (0, (40:α)/100, 0)],
      limits := [(-180,180), (-150,150), (-150,150)] })]

/-- The robot model built by the `Robot` constructor: name, DH table,
limits converted to radians (`l * RAD`, `RAD = pi/180`), and the current
angle vector (zero-initialised `Float64Array(nJoints)`). -/
structure Robot (α : Type) where
  name : String
  dh : List (α × α × α)
  limits : List (α × α)
  angles : List α

/-- `this.nJoints = p.dh.length`. -/
def Robot.nJoints (r : Robot α) : Nat := r.dh.length

/-- The error taxonomy's `ConfigError`: the single hard failure, raised
by robot construction on an unknown preset key (the constructor's
preset lookup fails there and nothing is built). -/
inductive ConfigError where
  | unknownPreset (key : String)
deriving DecidableEq, Repr

/-- `createRobot(presetKey)` — the `Robot` constructor as a fallible
operation: a known key builds the model (limits converted degree→radian
via `RAD = pi/180`), an unknown key is the hard `ConfigError` failure. -/
def createRobot (pi : α) (key : String) : Except ConfigError (Robot α) :=
  match (presets pi).lookup key with
  | some p => .ok
      { name := p.name,
        dh := p.dh,
        limits := p.limits.map (fun l => (l.1 * (pi / 180), l.2 * (pi / 180))),
        angles := List.replicate p.dh.length 0 }
  | none => .error (ConfigError.unknownPreset key)

/-- `clampAngles(angles)`: a fresh vector of the input's length whose
`i`-th slot, for `i < nJoints`, is `max(limits[i][0], min(limits[i][1],
angles[i]))`; slots past the loop bound keep the typed array's zero
initialisation. -/
def Robot.clampAngles (r : Robot α) (angles : List α) : List α :=
  idxMap (fun i a =>
    if i < r.nJoints then
      let l := r.limits.getD i (0, 0)
      max l.1 (min l.2 a)
    else 0) 0 angles

/-- The loop body chain of `fk`: given the cumulative pose `prev` and the
remaining `(theta, (d, a, alpha))` pairs, pushes
`prev * dhTransform(theta, d, a, alpha)` and recurses on it. -/
def fkChain (fcos fsin : α → α) (prev : Mat4 α) : List (α × (α × α × α)) → List (Mat4 α)
  | [] => []
  | (θ, (d, a, alpha)) :: rest =>
    let T := mat4Mul prev (dhTransform fcos fsin θ d a alpha)
    T :: fkChain fcos fsin T rest

/-- `fk(angles)`: the FrameChain `[I, T_1, …, T_n]`, with
`T_{i+1} = T_i · dhTransform(angles[i], d_i, a_i, alpha_i)`. -/
def Robot.fk (r : Robot α) (fcos fsin : α → α) (angles : List α) : List (Mat4 α) :=
  mat4Identity :: fkChain fcos fsin mat4Identity (angles.zip r.dh)

/-- End-effector position: `mat4Pos(T[nJoints])` of the FK chain. -/
def Robot.eePos (r : Robot α) (fcos fsin : α → α) (angles : List α) : Vec3 α :=
  mat4Pos ((r.fk fcos fsin angles).getD r.nJoints mat4Identity)

/-- The geometric column `i` of the position Jacobian:
`z_i × (p_e − p_i)` with `z_i = mat4AxisZ(T[i])`, `p_i = mat4Pos(T[i])`. -/
def jacCol (T : List (Mat4 α)) (pe : Vec3 α) (i : Nat) : Vec3 α :=
  v3Cross (mat4AxisZ (T.getD i mat4Identity)) (v3Sub pe (mat4Pos (T.getD i mat4Identity)))

/-- `jacobian(angles)`: the pair `(Jp, Jr)` of flat `3×n` row-major
arrays, `Jp[r*n+i]` holding component `r` of `z_i × (p_e − p_i)` and
`Jr[r*n+i]` component `r` of `z_i`. -/
def Robot.jacobian (r : Robot α) (fcos fsin : α → α) (angles : List α) :
    List α × List α :=
  let T := r.fk fcos fsin angles
  let n := r.nJoints
  let pe := mat4Pos (T.getD n mat4Identity)
  ((List.range n).map (fun i => (jacCol T pe i).x) ++
   (List.range n).map (fun i => (jacCol T pe i).y) ++
   (List.range n).map (fun i => (jacCol T pe i).z),
   (List.range n).map (fun i => (mat4AxisZ (T.getD i mat4Identity)).x) ++
   (List.range n).map (fun i => (mat4AxisZ (T.getD i mat4Identity)).y) ++
   (List.range n).map (fun i => (mat4AxisZ (T.getD i mat4Identity)).z))

/-! ## Damped-least-squares IK (`solveIK`) -/

/-- The damped normal-equations matrix `M = Jp·Jpᵗ + λ²·I` as a flat
row-major `3×3` array: `M[r*3+c] = Σ_k Jp[r*n+k]·Jp[c*n+k] + [r=c]·λ²`. -/
def dampedM (Jp : List α) (n : Nat) (lam : α) : List α :=
  (List.range 3).flatMap (fun r =>
    (List.range 3).map (fun c =>
      ((List.range n).map (fun k => Jp.getD (r * n + k) 0 * Jp.getD (c * n + k) 0)).sum +
        if r = c then lam * lam else 0))

/-- The joint update `angles[i] += Σ_r Jp[r*n+i]·v[r]`. -/
def updateAngles (Jp : List α) (n : Nat) (v : List α) (angles : List α) : List α :=
  idxMap (fun i a =>
    a + ((List.range 3).map (fun row => Jp.getD (row * n + i) 0 * v.getD row 0)).sum) 0 angles

/-- `IKResult`: clamped angle vector, convergence flag, final Euclidean
position error and iterations consumed. -/
structure IKResult (α : Type) where
  angles : List α
  converged : Bool
  error : α
  iterations : Nat
deriving DecidableEq, Repr

/-- The `solveIK` iteration loop.  `fuel` is the number of iterations
still allowed and `iter` the number already consumed, so the loop is
entered with `fuel = maxIter, iter = 0` and exhaustion reports
`iter = maxIter`, recomputing the error from the final pose. -/
def ikLoop (r : Robot α) (fcos fsin fsqrt : α → α) (target : Vec3 α)
    (tol lam : α) : Nat → Nat → List α → IKResult α
  | 0, iter, angles =>
    { angles := angles, converged := false,
      error := v3Len fsqrt (v3Sub target (r.eePos fcos fsin angles)),
      iterations := iter }
  | fuel + 1, iter, angles =>
    let pe := r.eePos fcos fsin angles
    let err := v3Sub target pe
    let dist := v3Len fsqrt err
    if dist < tol then
      { angles := r.clampAngles angles, converged := true,
        error := dist, iterations := iter }
    else
      let Jp := (r.jacobian fcos fsin angles).1
      let n := r.nJoints
      let v := solveLinear (dampedM Jp n lam) [err.x, err.y, err.z] 3
      let angles2 := r.clampAngles (updateAngles Jp n v angles)
      ikLoop r fcos fsin fsqrt target tol lam fuel (iter + 1) angles2

/-- The recognised IK options (`opts.maxIter`, `opts.tol`, `opts.lambda`;
the spec's `maxIterations`, `positionTolerance`, `dampingFactor`). -/
structure IKOpts (α : Type) where
  maxIter : Option Nat
  tol : Option α
  lam : Option α

/-- `opts.maxIter || 200`: an absent or zero (falsy) value defaults. -/
def resolveMaxIter (o : Option Nat) : Nat :=
  match o with
  | none => 200
  | some v => if v = 0 then 200 else v

/-- `opts.tol || 0.001`. -/
def resolveTol (o : Option α) : α :=
  match o with
  | none => 1 / 1000
  | some v => if v = 0 then 1 / 1000 else v

/-- `opts.lambda || 0.5`. -/
def resolveLambda (o : Option α) : α :=
  match o with
  | none => 1 / 2
  | some v => if v = 0 then 1 / 2 else v

/-- `solveIK(target, startAngles, opts)` (the spec's
`solveInverseKinematics`): resolves the options and runs the iteration
loop from the supplied start angles. -/
def Robot.solveIK (r : Robot α) (fcos fsin fsqrt : α → α) (target : Vec3 α)
    (start : List α) (opts : IKOpts α) : IKResult α :=
  ikLoop r fcos fsin fsqrt target (resolveTol opts.tol) (resolveLambda opts.lam)
    (resolveMaxIter opts.maxIter) 0 start

/-- The angle-to-angle map of one non-converged IK iteration: Jacobian,
damped normal equations, joint update, limit clamp.  The body of
`ikLoop`'s else-branch computes exactly this vector. -/
def ikNext (r : Robot α) (fcos fsin : α → α) (target : Vec3 α) (lam : α)
    (angles : List α) : List α :=
  let pe := r.eePos fcos fsin angles
  let err := v3Sub target pe
  let Jp := (r.jacobian fcos fsin angles).1
  let n := r.nJoints
  let v := solveLinear (dampedM Jp n lam) [err.x, err.y, err.z] 3
  r.clampAngles (updateAngles Jp n v angles)

/-- The per-joint limit check: the vector has the model's joint count and
every component lies inside its configured `[min, max]` range. -/
def withinLimits (r : Robot α) (v : List α) : Prop :=
  v.length = r.nJoints ∧ ∀ i, i < r.nJoints →
    (r.limits.getD i (0, 0)).1 ≤ v.getD i 0 ∧ v.getD i 0 ≤ (r.limits.getD i (0, 0)).2

instance (r : Robot α) (v : List α) : Decidable (withinLimits r v) := by
  unfold withinLimits; infer_instance

/-! ## Helper lemmas -/

lemma idxMap_length {β : Type} (f : Nat → β → β) :
    ∀ (i : Nat) (l : List β), (idxMap f i l).length = l.length := by
  intro i l
  induction l generalizing i with
  | nil => rfl
  | cons a as ih => simp [idxMap, ih]

lemma idxMap_getD {β : Type} (f : Nat → β → β) (d : β) :
    ∀ (l : List β) (i j : Nat), j < l.length →
      (idxMap f i l).getD j d = f (i + j) (l.getD j d) := by
  intro l
  induction l with
  | nil => intro i j h; simp at h
  | cons a as ih =>
    intro i j h
    cases j with
    | zero => simp [idxMap]
    | succ j =>
      have hj : j < as.length := by simpa using h
      have := ih (i + 1) j hj
      simpa [idxMap, Nat.add_assoc, Nat.add_comm 1 j] using this

lemma idxMap_idem {β : Type} (f : Nat → β → β)
    (hf : ∀ i a, f i (f i a) = f i a) :
    ∀ (i : Nat) (l : List β), idxMap f i (idxMap f i l) = idxMap f i l := by
  intro i l
  induction l generalizing i with
  | nil => rfl
  | cons a as ih => simp [idxMap, hf, ih]

lemma idxMap_eq_self (f : Nat → α → α) :
    ∀ (l : List α) (i : Nat),
      (∀ j, j < l.length → f (i + j) (l.getD j 0) = l.getD j 0) →
      idxMap f i l = l := by
  intro l
  induction l with
  | nil => intro i _; rfl
  | cons a as ih =>
    intro i h
    have h0 := h 0 (by simp)
    simp only [List.getD_cons_zero, Nat.add_zero] at h0
    have hrest : ∀ j, j < as.length → f (i + 1 + j) (as.getD j 0) = as.getD j 0 := by
      intro j hj
      have := h (j + 1) (by simpa using Nat.succ_lt_succ hj)
      simpa [Nat.add_assoc, Nat.add_comm 1 j] using this
    simp [idxMap, h0, ih (i + 1) hrest]

/-- Per-component clamp `max lo (min hi ·)` is idempotent. -/
lemma clamp1_idem (lo hi a : α) :
    max lo (min hi (max lo (min hi a))) = max lo (min hi a) := by
  rcases le_total lo hi with h | h
  · rcases le_total a hi with ha | ha
    · rcases le_total a lo with hb | hb
      · simp [min_eq_right ha, max_eq_left hb, min_eq_right h, max_eq_left le_rfl]
      · simp [min_eq_right ha, max_eq_right hb, min_eq_right ha, max_eq_right hb]
    · simp [min_eq_left ha, max_eq_right h, min_eq_left le_rfl, max_eq_right h]
  · have h1 : min hi a ≤ lo := le_trans (min_le_left _ _) h
    have h2 : min hi (max lo (min hi a)) ≤ lo := le_trans (min_le_left _ _) h
    simp [max_eq_left h1, max_eq_left h2]

/-- `clampAngles` is idempotent (on vectors of any length: slots past
the joint count are zeroed by the first pass and stay zero). -/
lemma clampAngles_idem (r : Robot α) (v : List α) :
    r.clampAngles (r.clampAngles v) = r.clampAngles v := by
  unfold Robot.clampAngles
  refine idxMap_idem _ ?_ 0 v
  intro i a
  by_cases h : i < r.nJoints
  · simp only [h, if_true]
    exact clamp1_idem _ _ _
  · simp [h]

/-- A vector inside the joint limits is a fixed point of `clampAngles`. -/
lemma clampAngles_of_withinLimits (r : Robot α) (v : List α)
    (h : withinLimits r v) : r.clampAngles v = v := by
  obtain ⟨hlen, hin⟩ := h
  unfold Robot.clampAngles
  refine idxMap_eq_self _ v 0 ?_
  intro j hj
  have hj' : j < r.nJoints := hlen ▸ hj
  obtain ⟨h1, h2⟩ := hin j hj'
  simp only [Nat.zero_add, hj', if_true]
  rw [min_eq_right h2, max_eq_right h1]

lemma zip_getD (l1 : List α) (l2 : List (α × α × α)) :
    ∀ j, j < l1.length → j < l2.length →
      (l1.zip l2).getD j (0, 0, 0, 0) = (l1.getD j 0, l2.getD j (0, 0, 0)) := by
  induction l1 generalizing l2 with
  | nil => intro j h; simp at h
  | cons a as ih =>
    intro j h1 h2
    cases l2 with
    | nil => simp at h2
    | cons b bs =>
      cases j with
      | zero => simp [List.zip]
      | succ j =>
        have := ih bs j (by simpa using h1) (by simpa using h2)
        simpa [List.zip] using this

lemma fkChain_length (fcos fsin : α → α) :
    ∀ (l : List (α × α × α × α)) (prev : Mat4 α),
      (fkChain fcos fsin prev l).length = l.length := by
  intro l
  induction l with
  | nil => intro prev; rfl
  | cons e rest ih =>
    intro prev
    obtain ⟨θ, d, a, al⟩ := e
    simp [fkChain, ih]

lemma fkChain_succ (fcos fsin : α → α) :
    ∀ (l : List (α × α × α × α)) (prev : Mat4 α) (j : Nat), j < l.length →
      (prev :: fkChain fcos fsin prev l).getD (j + 1) mat4Identity =
        mat4Mul ((prev :: fkChain fcos fsin prev l).getD j mat4Identity)
          (dhTransform fcos fsin (l.getD j (0, 0, 0, 0)).1
            (l.getD j (0, 0, 0, 0)).2.1 (l.getD j (0, 0, 0, 0)).2.2.1
            (l.getD j (0, 0, 0, 0)).2.2.2) := by
  intro l
  induction l with
  | nil => intro prev j h; simp at h
  | cons e rest ih =>
    intro prev j h
    obtain ⟨θ, d, a, al⟩ := e
    cases j with
    | zero => simp [fkChain]
    | succ j =>
      have hj : j < rest.length := by simpa using h
      have := ih (mat4Mul prev (dhTransform fcos fsin θ d a al)) j hj
      simpa [fkChain] using this

lemma range_map_getD (f : Nat → α) (d : α) :
    ∀ (n i : Nat), i < n → ((List.range n).map f).getD i d = f i := by
  intro n i h
  rw [List.getD_eq_getElem _ _ (by simpa using h)]
  simp

lemma triple_append_getD (l1 l2 l3 : List α) (n i : Nat) (d : α)
    (h1 : l1.length = n) (h2 : l2.length = n) (h3 : l3.length = n)
    (hi : i < n) :
    (l1 ++ l2 ++ l3).getD (0 * n + i) d = l1.getD i d ∧
    (l1 ++ l2 ++ l3).getD (1 * n + i) d = l2.getD i d ∧
    (l1 ++ l2 ++ l3).getD (2 * n + i) d = l3.getD i d := by
  refine ⟨?_, ?_, ?_⟩
  · rw [show 0 * n + i = i by ring]
    rw [List.getD_append _ _ _ _ (by simp [h1, h2]; omega),
        List.getD_append _ _ _ _ (by omega)]
  · rw [show 1 * n + i = l1.length + i by omega]
    rw [List.append_assoc,
        List.getD_append_right _ _ _ _ (by omega), Nat.add_sub_cancel_left,
        List.getD_append _ _ _ _ (by omega)]
  · rw [show 2 * n + i = (l1 ++ l2).length + i by simp [h1, h2]; omega]
    rw [List.getD_append_right _ _ _ _ (by omega), Nat.add_sub_cancel_left]

lemma backSubFrom_length (aug : List (List α)) (n : Nat) :
    ∀ k, (backSubFrom aug n k).length = k := by
  intro k
  induction k with
  | zero => rfl
  | succ k ih => simp [backSubFrom, ih]

/-- The zero-fallback of back-substitution: a row whose diagonal entry
has magnitude at most `1e-12` contributes solution component `0`. -/
lemma backSubFrom_zero (aug : List (List α)) (n : Nat) :
    ∀ k, k ≤ n → ∀ j, j < k →
      absA (entry aug (n - k + j) (n - k + j)) ≤ eps →
      (backSubFrom aug n k).getD j 0 = 0 := by
  intro k
  induction k with
  | zero => intro _ j h; omega
  | succ k ih =>
    intro hk j hj hsmall
    cases j with
    | zero =>
      have hcond : ¬ eps < absA ((aug.getD (n - (k + 1)) []).getD (n - (k + 1)) 0) := by
        rw [show n - (k + 1) + 0 = n - (k + 1) by omega] at hsmall
        exact not_lt_of_le hsmall
      simp only [backSubFrom, List.getD_cons_zero]
      rw [if_neg hcond]
    | succ j =>
      have hidx : n - (k + 1) + (j + 1) = n - k + j := by omega
      rw [hidx] at hsmall
      have := ih (by omega) j (by omega) hsmall
      simpa [backSubFrom] using this

/-- An iteration that is already within tolerance returns at once. -/
lemma ikLoop_hit (r : Robot α) (fcos fsin fsqrt : α → α) (target : Vec3 α)
    (tol lam : α) (fuel iter : Nat) (angles : List α)
    (h : v3Len fsqrt (v3Sub target (r.eePos fcos fsin angles)) < tol) :
    ikLoop r fcos fsin fsqrt target tol lam (fuel + 1) iter angles =
      { angles := r.clampAngles angles, converged := true,
        error := v3Len fsqrt (v3Sub target (r.eePos fcos fsin angles)),
        iterations := iter } := by
  simp only [ikLoop, h, if_true]

/-- Body of `ikLoop`'s non-converged branch is exactly `ikNext`. -/
lemma ikLoop_step (r : Robot α) (fcos fsin fsqrt : α → α) (target : Vec3 α)
    (tol lam : α) (fuel iter : Nat) (angles : List α)
    (h : ¬ v3Len fsqrt (v3Sub target (r.eePos fcos fsin angles)) < tol) :
    ikLoop r fcos fsin fsqrt target tol lam (fuel + 1) iter angles =
      ikLoop r fcos fsin fsqrt target tol lam fuel (iter + 1)
        (ikNext r fcos fsin target lam angles) := by
  simp only [ikLoop, ikNext, h, if_false]

/-- If no iterate of `ikNext` comes within tolerance, `ikLoop` consumes
all its fuel and reports the exhausted result: final angles are the
`fuel`-fold iterate, `converged = false`, error recomputed from the
final pose, iteration count = starting count plus fuel. -/
lemma ikLoop_exhaust (r : Robot α) (fcos fsin fsqrt : α → α) (target : Vec3 α)
    (tol lam : α) :
    ∀ (fuel iter : Nat) (angles : List α),
      (∀ k, k < fuel →
        ¬ v3Len fsqrt (v3Sub target
            (r.eePos fcos fsin ((ikNext r fcos fsin target lam)^[k] angles))) < tol) →
      ikLoop r fcos fsin fsqrt target tol lam fuel iter angles =
        { angles := (ikNext r fcos fsin target lam)^[fuel] angles,
          converged := false,
          error := v3Len fsqrt (v3Sub target
            (r.eePos fcos fsin ((ikNext r fcos fsin target lam)^[fuel] angles))),
          iterations := iter + fuel } := by
  intro fuel
  induction fuel with
  | zero => intro iter angles _; simp [ikLoop]
  | succ f ih =>
    intro iter angles h
    have h0 : ¬ v3Len fsqrt (v3Sub target (r.eePos fcos fsin angles)) < tol := by
      simpa using h 0 (Nat.succ_pos f)
    rw [ikLoop_step r fcos fsin fsqrt target tol lam f iter angles h0]
    have hrest : ∀ k, k < f →
        ¬ v3Len fsqrt (v3Sub target
            (r.eePos fcos fsin ((ikNext r fcos fsin target lam)^[k]
              (ikNext r fcos fsin target lam angles)))) < tol := by
      intro k hk
      have := h (k + 1) (by omega)
      simpa [Function.iterate_succ_apply] using this
    rw [ih (iter + 1) (ikNext r fcos fsin target lam angles) hrest]
    simp [Function.iterate_succ_apply, Nat.add_assoc, Nat.add_comm 1 f]

/-- If the start vector is a fixed point of `clampAngles` and the loop
converges, the reported error is the distance recomputed at the
*returned* angle vector and is strictly below the tolerance. -/
lemma ikLoop_converged (r : Robot α) (fcos fsin fsqrt : α → α) (target : Vec3 α)
    (tol lam : α) :
    ∀ (fuel iter : Nat) (angles : List α),
      r.clampAngles angles = angles →
      (ikLoop r fcos fsin fsqrt target tol lam fuel iter angles).converged = true →
      (ikLoop r fcos fsin fsqrt target tol lam fuel iter angles).error =
        v3Len fsqrt (v3Sub target (r.eePos fcos fsin
          (ikLoop r fcos fsin fsqrt target tol lam fuel iter angles).angles)) ∧
      (ikLoop r fcos fsin fsqrt target tol lam fuel iter angles).error < tol := by
  intro fuel
  induction fuel with
  | zero => intro iter angles _ hc; simp [ikLoop] at hc
  | succ f ih =>
    intro iter angles hfix hc
    by_cases h : v3Len fsqrt (v3Sub target (r.eePos fcos fsin angles)) < tol
    · simp only [ikLoop, h, if_true]
      exact ⟨by simp [hfix], trivial⟩
    · rw [ikLoop_step r fcos fsin fsqrt target tol lam f iter angles h] at hc ⊢
      exact ih (iter + 1) (ikNext r fcos fsin target lam angles)
        (clampAngles_idem r _) hc

lemma resolveMaxIter_eq_getD (o : Option Nat)
    (h : ∀ m, o = some m → 0 < m) : resolveMaxIter o = o.getD 200 := by
  cases o with
  | none => rfl
  | some v =>
    have hv := h v rfl
    simp [resolveMaxIter, Nat.pos_iff_ne_zero.mp hv]

lemma resolveTol_eq_getD (o : Option α)
    (h : ∀ t, o = some t → 0 < t) : resolveTol o = o.getD (1 / 1000) := by
  cases o with
  | none => rfl
  | some v =>
    have hv := h v rfl
    simp [resolveTol, hv.ne']

lemma resolveLambda_eq_getD (o : Option α)
    (h : ∀ l, o = some l → 0 < l) : resolveLambda o = o.getD (1 / 2) := by
  cases o with
  | none => rfl
  | some v =>
    have hv := h v rfl
    simp [resolveLambda, hv.ne']

lemma resolveMaxIter_pos (o : Option Nat) : 0 < resolveMaxIter o := by
  cases o with
  | none => exact Nat.succ_pos _
  | some v =>
    by_cases h : v = 0
    · simp [resolveMaxIter, h]
    · simp only [resolveMaxIter, h, if_false]
      omega

/-- `ikNext` always lands in the image of `clampAngles`, hence is a
fixed point of it. -/
lemma ikNext_clamped (r : Robot α) (fcos fsin : α → α) (target : Vec3 α)
    (lam : α) (angles : List α) :
    r.clampAngles (ikNext r fcos fsin target lam angles) =
      ikNext r fcos fsin target lam angles := by
  simp only [ikNext]
  exact clampAngles_idem r _

/-- The 4x4 DH matrix as the spec spells it out (§4.1): rotation block
`[[cosθ, -sinθ·cosα, sinθ·sinα], [sinθ, cosθ·cosα, -cosθ·sinα],
[0, sinα, cosα]]`, translation column `[a·cosθ, a·sinθ, d]`, bottom row
`[0, 0, 0, 1]`; written from the spec's words for comparison with the
source's `dhTransform`. -/
def dhSpecMatrix (ct st ca sa d a : α) : Mat4 α :=
  ⟨ct, -(st * ca), st * sa, a * ct,
   st, ct * ca, -(ct * sa), a * st,
   0, sa, ca, d,
   0, 0, 0, 1⟩

/-! ## Concrete evaluation fixtures (rational instance) -/

/-- Trigonometric stand-in for concrete evaluation. -/
def wcos : ℚ → ℚ := fun _ => 1

/-- Trigonometric stand-in for concrete evaluation. -/
def wsin : ℚ → ℚ := fun _ => 0

/-- Square-root stand-in for concrete evaluation. -/
def wsqrt : ℚ → ℚ := fun x => x

/-- A one-joint robot model for concrete evaluation. -/
def wrobot : Robot ℚ :=
  { name := "test", dh := [(0, 1, 0)], limits := [(-10, 10)], angles := [0] }

/-! ## Claim theorems -/

/-- C1: for every robot model with `n` joints and every length-`n` joint
angle vector, the FK chain has `n+1` poses, pose 0 is the identity, and
pose `i` (for `1 ≤ i ≤ n`) is pose `i-1` right-composed with the DH
transform of `angles[i-1]` and DH row `i-1`. -/
theorem fk_chain_invariant (r : Robot α) (fcos fsin : α → α) (angles : List α)
    (h : angles.length = r.nJoints) :
    (r.fk fcos fsin angles).length = r.nJoints + 1 ∧
    (r.fk fcos fsin angles).getD 0 mat4Identity = mat4Identity ∧
    ∀ i, 1 ≤ i → i ≤ r.nJoints →
      (r.fk fcos fsin angles).getD i mat4Identity =
        mat4Mul ((r.fk fcos fsin angles).getD (i - 1) mat4Identity)
          (dhTransform fcos fsin (angles.getD (i - 1) 0)
            (r.dh.getD (i - 1) (0, 0, 0)).1
            (r.dh.getD (i - 1) (0, 0, 0)).2.1
            (r.dh.getD (i - 1) (0, 0, 0)).2.2) := by
  have hzip : (angles.zip r.dh).length = r.nJoints := by
    simp [List.length_zip, h, Robot.nJoints]
  refine ⟨?_, rfl, ?_⟩
  · simp [Robot.fk, fkChain_length, hzip]
  · intro i h1 h2
    cases i with
    | zero => omega
    | succ j =>
      have hj : j < (angles.zip r.dh).length := by omega
      have hstep := fkChain_succ fcos fsin (angles.zip r.dh) mat4Identity j hj
      have hz := zip_getD angles r.dh j (by omega) (by simp [Robot.nJoints] at h2 ⊢; omega)
      simp only [Robot.fk, Nat.succ_sub_one]
      rw [hstep, hz]

/-- C1 witness at a concrete robot and angle vector. -/
theorem fk_chain_invariant_witness :
    ([(0 : ℚ)].length = wrobot.nJoints) ∧
    (wrobot.fk wcos wsin [0]).length = wrobot.nJoints + 1 :=
  ⟨by decide, (fk_chain_invariant wrobot wcos wsin [0] (by decide)).1⟩

/-- C2: `dhTransform` is exactly the row-major homogeneous matrix the
spec describes, with rotation block, translation column and bottom row
as spelled out in `dhSpecMatrix`. -/
theorem dhTransform_matches_spec (fcos fsin : α → α) (theta d a alpha : α) :
    dhTransform fcos fsin theta d a alpha =
      dhSpecMatrix (fcos theta) (fsin theta) (fcos alpha) (fsin alpha) d a := by
  simp [dhTransform, dhSpecMatrix, neg_mul]

/-- C3: for a length-`n` angle vector, column `i` of the flat `3×n`
position block is `z_i × (p_e − p_i)` and column `i` of the orientation
block is `z_i`, with `z_i`, `p_i` taken from frame `i` of the FK chain
and `p_e` from frame `n`. -/
theorem jacobian_columns (r : Robot α) (fcos fsin : α → α) (angles : List α)
    (h : angles.length = r.nJoints) :
    ∀ i, i < r.nJoints →
      ((⟨(r.jacobian fcos fsin angles).1.getD (0 * r.nJoints + i) 0,
         (r.jacobian fcos fsin angles).1.getD (1 * r.nJoints + i) 0,
         (r.jacobian fcos fsin angles).1.getD (2 * r.nJoints + i) 0⟩ : Vec3 α) =
        v3Cross (mat4AxisZ ((r.fk fcos fsin angles).getD i mat4Identity))
          (v3Sub (mat4Pos ((r.fk fcos fsin angles).getD r.nJoints mat4Identity))
            (mat4Pos ((r.fk fcos fsin angles).getD i mat4Identity)))) ∧
      ((⟨(r.jacobian fcos fsin angles).2.getD (0 * r.nJoints + i) 0,
         (r.jacobian fcos fsin angles).2.getD (1 * r.nJoints + i) 0,
         (r.jacobian fcos fsin angles).2.getD (2 * r.nJoints + i) 0⟩ : Vec3 α) =
        mat4AxisZ ((r.fk fcos fsin angles).getD i mat4Identity)) := by
  intro i hi
  have hlen : ∀ f : Nat → α, ((List.range r.nJoints).map f).length = r.nJoints := by
    intro f; simp
  constructor
  · obtain ⟨e0, e1, e2⟩ := triple_append_getD
      ((List.range r.nJoints).map (fun i =>
        (jacCol (r.fk fcos fsin angles)
          (mat4Pos ((r.fk fcos fsin angles).getD r.nJoints mat4Identity)) i).x))
      ((List.range r.nJoints).map (fun i =>
        (jacCol (r.fk fcos fsin angles)
          (mat4Pos ((r.fk fcos fsin angles).getD r.nJoints mat4Identity)) i).y))
      ((List.range r.nJoints).map (fun i =>
        (jacCol (r.fk fcos fsin angles)
          (mat4Pos ((r.fk fcos fsin angles).getD r.nJoints mat4Identity)) i).z))
      r.nJoints i 0 (hlen _) (hlen _) (hlen _) hi
    show (⟨_, _, _⟩ : Vec3 α) = _
    rw [show (r.jacobian fcos fsin angles).1 =
          ((List.range r.nJoints).map (fun i =>
            (jacCol (r.fk fcos fsin angles)
              (mat4Pos ((r.fk fcos fsin angles).getD r.nJoints mat4Identity)) i).x)) ++
          ((List.range r.nJoints).map (fun i =>
            (jacCol (r.fk fcos fsin angles)
              (mat4Pos ((r.fk fcos fsin angles).getD r.nJoints mat4Identity)) i).y)) ++
          ((List.range r.nJoints).map (fun i =>
            (jacCol (r.fk fcos fsin angles)
              (mat4Pos ((r.fk fcos fsin angles).getD r.nJoints mat4Identity)) i).z))
        from rfl]
    rw [e0, e1, e2,
        range_map_getD _ _ _ _ hi, range_map_getD _ _ _ _ hi, range_map_getD _ _ _ _ hi]
    rfl
  · obtain ⟨e0, e1, e2⟩ := triple_append_getD
      ((List.range r.nJoints).map (fun i =>
        (mat4AxisZ ((r.fk fcos fsin angles).getD i mat4Identity)).x))
      ((List.range r.nJoints).map (fun i =>
        (mat4AxisZ ((r.fk fcos fsin angles).getD i mat4Identity)).y))
      ((List.range r.nJoints).map (fun i =>
        (mat4AxisZ ((r.fk fcos fsin angles).getD i mat4Identity)).z))
      r.nJoints i 0 (hlen _) (hlen _) (hlen _) hi
    show (⟨_, _, _⟩ : Vec3 α) = _
    rw [show (r.jacobian fcos fsin angles).2 =
          ((List.range r.nJoints).map (fun i =>
            (mat4AxisZ ((r.fk fcos fsin angles).getD i mat4Identity)).x)) ++
          ((List.range r.nJoints).map (fun i =>
            (mat4AxisZ ((r.fk fcos fsin angles).getD i mat4Identity)).y)) ++
          ((List.range r.nJoints).map (fun i =>
            (mat4AxisZ ((r.fk fcos fsin angles).getD i mat4Identity)).z))
        from rfl]
    rw [e0, e1, e2,
        range_map_getD _ _ _ _ hi, range_map_getD _ _ _ _ hi, range_map_getD _ _ _ _ hi]

/-- C3 witness at a concrete robot and angle vector, joint `0`. -/
theorem jacobian_columns_witness :
    ([(0 : ℚ)].length = wrobot.nJoints) ∧ (0 < wrobot.nJoints) ∧
    (⟨(wrobot.jacobian wcos wsin [0]).1.getD (0 * wrobot.nJoints + 0) 0,
      (wrobot.jacobian wcos wsin [0]).1.getD (1 * wrobot.nJoints + 0) 0,
      (wrobot.jacobian wcos wsin [0]).1.getD (2 * wrobot.nJoints + 0) 0⟩ : Vec3 ℚ) =
      v3Cross (mat4AxisZ ((wrobot.fk wcos wsin [0]).getD 0 mat4Identity))
        (v3Sub (mat4Pos ((wrobot.fk wcos wsin [0]).getD wrobot.nJoints mat4Identity))
          (mat4Pos ((wrobot.fk wcos wsin [0]).getD 0 mat4Identity))) :=
  ⟨by decide, by decide,
   (jacobian_columns wrobot wcos wsin [0] (by decide) 0 (by decide)).1⟩

/-- C4: `solveLinear` always returns a length-`n` solution vector, for
singular systems included, and whenever the (post-elimination) diagonal
pivot of a row has magnitude at most the `1e-12` threshold the
corresponding solution component is assigned `0` rather than divided by
the near-zero pivot. -/
theorem solveLinear_total_and_zero_policy (A b : List α) (n : Nat) :
    (solveLinear A b n).length = n ∧
    ∀ i, i < n → absA (entry (gaussElim (mkAug A b n) n) i i) ≤ eps →
      (solveLinear A b n).getD i 0 = 0 := by
  constructor
  · exact backSubFrom_length _ _ n
  · intro i hi hsmall
    have h := backSubFrom_zero (gaussElim (mkAug A b n) n) n n le_rfl i hi
      (by rw [show n - n + i = i by omega]; exact hsmall)
    exact h

/-- C4 witness: a concrete singular `2×2` system still yields a
length-2 vector, with the policy `0` in the degenerate component. -/
theorem solveLinear_policy_witness :
    (solveLinear ([1, 2, 2, 4] : List ℚ) [3, 6] 2).length = 2 ∧
    (1 < 2 ∧
      absA (entry (gaussElim (mkAug ([1, 2, 2, 4] : List ℚ) [3, 6] 2) 2) 1 1) ≤ eps ∧
      (solveLinear ([1, 2, 2, 4] : List ℚ) [3, 6] 2).getD 1 0 = 0) :=
  ⟨(solveLinear_total_and_zero_policy ([1, 2, 2, 4] : List ℚ) [3, 6] 2).1,
   by decide, by decide,
   (solveLinear_total_and_zero_policy ([1, 2, 2, 4] : List ℚ) [3, 6] 2).2 1
     (by decide) (by decide)⟩

/-- C5: when no iterate of the IK step comes within the position
tolerance of the target, the solver runs exactly `maxIterations`
iterations and returns the final (limit-clamped) angles with
`converged = false`, `iterations = maxIterations`, and `error` equal to
the distance between target and the end-effector position recomputed by
FK from those final angles. -/
theorem solveIK_exhausted (r : Robot α) (fcos fsin fsqrt : α → α)
    (target : Vec3 α) (start : List α) (opts : IKOpts α)
    (h : ∀ k, k < resolveMaxIter opts.maxIter →
      ¬ v3Len fsqrt (v3Sub target (r.eePos fcos fsin
          ((ikNext r fcos fsin target (resolveLambda opts.lam))^[k] start))) <
        resolveTol opts.tol) :
    r.solveIK fcos fsin fsqrt target start opts =
      { angles := (ikNext r fcos fsin target
          (resolveLambda opts.lam))^[resolveMaxIter opts.maxIter] start,
        converged := false,
        error := v3Len fsqrt (v3Sub target (r.eePos fcos fsin
          ((ikNext r fcos fsin target
            (resolveLambda opts.lam))^[resolveMaxIter opts.maxIter] start))),
        iterations := resolveMaxIter opts.maxIter } ∧
    r.clampAngles (r.solveIK fcos fsin fsqrt target start opts).angles =
      (r.solveIK fcos fsin fsqrt target start opts).angles := by
  have hmain : r.solveIK fcos fsin fsqrt target start opts =
      { angles := (ikNext r fcos fsin target
          (resolveLambda opts.lam))^[resolveMaxIter opts.maxIter] start,
        converged := false,
        error := v3Len fsqrt (v3Sub target (r.eePos fcos fsin
          ((ikNext r fcos fsin target
            (resolveLambda opts.lam))^[resolveMaxIter opts.maxIter] start))),
        iterations := resolveMaxIter opts.maxIter } := by
    have := ikLoop_exhaust r fcos fsin fsqrt target (resolveTol opts.tol)
      (resolveLambda opts.lam) (resolveMaxIter opts.maxIter) 0 start h
    simpa [Robot.solveIK] using this
  refine ⟨hmain, ?_⟩
  rw [hmain]
  obtain ⟨t, ht⟩ : ∃ t, resolveMaxIter opts.maxIter = t + 1 := by
    have := resolveMaxIter_pos opts.maxIter
    exact ⟨resolveMaxIter opts.maxIter - 1, by omega⟩
  rw [ht]
  simp only [Function.iterate_succ_apply']
  exact ikNext_clamped r fcos fsin target (resolveLambda opts.lam) _

/-- C5 witness: a one-joint robot whose update step cannot move toward
an unreachable target exhausts its (single) iteration. -/
theorem solveIK_exhausted_witness :
    (∀ k, k < resolveMaxIter (some 1) →
      ¬ v3Len wsqrt (v3Sub ⟨10, 0, 0⟩ (wrobot.eePos wcos wsin
          ((ikNext wrobot wcos wsin ⟨10, 0, 0⟩
            (resolveLambda (none : Option ℚ)))^[k] [0]))) <
        resolveTol (none : Option ℚ)) ∧
    wrobot.solveIK wcos wsin wsqrt ⟨10, 0, 0⟩ [0] ⟨some 1, none, none⟩ =
      { angles := (ikNext wrobot wcos wsin ⟨10, 0, 0⟩
          (resolveLambda (none : Option ℚ)))^[resolveMaxIter (some 1)] [0],
        converged := false,
        error := v3Len wsqrt (v3Sub ⟨10, 0, 0⟩ (wrobot.eePos wcos wsin
          ((ikNext wrobot wcos wsin ⟨10, 0, 0⟩
            (resolveLambda (none : Option ℚ)))^[resolveMaxIter (some 1)] [0]))),
        iterations := resolveMaxIter (some 1) } :=
  ⟨by decide,
   (solveIK_exhausted wrobot wcos wsin wsqrt ⟨10, 0, 0⟩ [0] ⟨some 1, none, none⟩
     (by decide)).1⟩

/-- C6: if the start angles already place the end-effector within the
position tolerance of the target, the solver (at default options)
returns immediately: `converged = true`, `iterations = 0`, clamped start
angles, and the measured distance as the error — no joint update runs. -/
theorem solveIK_immediate_convergence (r : Robot α) (fcos fsin fsqrt : α → α)
    (target : Vec3 α) (start : List α) (opts : IKOpts α)
    (h : v3Len fsqrt (v3Sub target (r.eePos fcos fsin start)) < resolveTol opts.tol) :
    r.solveIK fcos fsin fsqrt target start opts =
      { angles := r.clampAngles start, converged := true,
        error := v3Len fsqrt (v3Sub target (r.eePos fcos fsin start)),
        iterations := 0 } := by
  obtain ⟨t, ht⟩ : ∃ t, resolveMaxIter opts.maxIter = t + 1 :=
    ⟨resolveMaxIter opts.maxIter - 1, by
      have := resolveMaxIter_pos opts.maxIter; omega⟩
  show ikLoop r fcos fsin fsqrt target (resolveTol opts.tol) (resolveLambda opts.lam)
      (resolveMaxIter opts.maxIter) 0 start = _
  rw [ht]
  exact ikLoop_hit r fcos fsin fsqrt target _ _ t 0 start h

/-- C6 witness: start angles already at the target. -/
theorem solveIK_immediate_witness :
    (v3Len wsqrt (v3Sub ⟨1, 0, 0⟩ (wrobot.eePos wcos wsin [0])) <
      resolveTol (none : Option ℚ)) ∧
    wrobot.solveIK wcos wsin wsqrt ⟨1, 0, 0⟩ [0] ⟨none, none, none⟩ =
      { angles := wrobot.clampAngles [0], converged := true,
        error := v3Len wsqrt (v3Sub ⟨1, 0, 0⟩ (wrobot.eePos wcos wsin [0])),
        iterations := 0 } :=
  ⟨by decide,
   solveIK_immediate_convergence wrobot wcos wsin wsqrt ⟨1, 0, 0⟩ [0]
     ⟨none, none, none⟩ (by decide)⟩

/-- C7: `createRobot` yields a robot model exactly for the known preset
keys, and fails with the `ConfigError` for every other key. -/
theorem createRobot_known_or_error (pi : α) (key : String) :
    (key ∈ ["6dof", "ur5", "scara", "3link"] →
      ∃ m : Robot α, createRobot pi key = Except.ok m) ∧
    (key ∉ ["6dof", "ur5", "scara", "3link"] →
      createRobot pi key = Except.error (ConfigError.unknownPreset key)) := by
  constructor
  · intro hk
    simp only [List.mem_cons, List.mem_singleton, List.not_mem_nil, or_false] at hk
    rcases hk with hk | hk | hk | hk <;> subst hk <;> exact ⟨_, rfl⟩
  · intro hk
    simp only [List.mem_cons, List.mem_singleton, List.not_mem_nil, or_false,
      not_or] at hk
    obtain ⟨h1, h2, h3, h4⟩ := hk
    have e1 : (key == "6dof") = false := beq_eq_false_iff_ne.mpr h1
    have e2 : (key == "ur5") = false := beq_eq_false_iff_ne.mpr h2
    have e3 : (key == "scara") = false := beq_eq_false_iff_ne.mpr h3
    have e4 : (key == "3link") = false := beq_eq_false_iff_ne.mpr h4
    simp [createRobot, presets, List.lookup, e1, e2, e3, e4]

/-- C7 witness: a known key and an unknown key. -/
theorem createRobot_witness :
    (∃ m : Robot ℚ, createRobot (3 : ℚ) "6dof" = Except.ok m) ∧
    createRobot (3 : ℚ) "nope" = Except.error (ConfigError.unknownPreset "nope") :=
  ⟨(createRobot_known_or_error (3 : ℚ) "6dof").1 (by decide),
   (createRobot_known_or_error (3 : ℚ) "nope").2 (by decide)⟩

/-- C8: for every options object whose supplied values are positive,
the solver runs with exactly the supplied values, and each omitted
option independently defaults to `200` iterations, `0.001` tolerance
and `0.5` damping — all eight presence combinations at once. -/
theorem solveIK_options (r : Robot α) (fcos fsin fsqrt : α → α)
    (target : Vec3 α) (start : List α) (opts : IKOpts α)
    (hm : ∀ m, opts.maxIter = some m → 0 < m)
    (ht : ∀ t, opts.tol = some t → 0 < t)
    (hl : ∀ l, opts.lam = some l → 0 < l) :
    r.solveIK fcos fsin fsqrt target start opts =
      ikLoop r fcos fsin fsqrt target (opts.tol.getD (1 / 1000))
        (opts.lam.getD (1 / 2)) (opts.maxIter.getD 200) 0 start := by
  unfold Robot.solveIK
  rw [resolveMaxIter_eq_getD _ hm, resolveTol_eq_getD _ ht,
      resolveLambda_eq_getD _ hl]

/-- C8 witness at a mixed options object: iteration budget supplied,
tolerance and damping omitted. -/
theorem solveIK_options_witness :
    ((∀ m, (some 7 : Option Nat) = some m → 0 < m) ∧
     (∀ t, (none : Option ℚ) = some t → 0 < t) ∧
     (∀ l, (none : Option ℚ) = some l → 0 < l)) ∧
    wrobot.solveIK wcos wsin wsqrt ⟨1, 0, 0⟩ [0] ⟨some 7, none, none⟩ =
      ikLoop wrobot wcos wsin wsqrt ⟨1, 0, 0⟩ ((none : Option ℚ).getD (1 / 1000))
        ((none : Option ℚ).getD (1 / 2)) ((some 7 : Option Nat).getD 200) 0 [0] :=
  by
  refine ⟨⟨?_, ?_, ?_⟩, ?_⟩
  · intro m hm
    injection hm with h
    omega
  · intro t ht
    simp at ht
  · intro l hl
    simp at hl
  · exact solveIK_options wrobot wcos wsin wsqrt ⟨1, 0, 0⟩ [0] ⟨some 7, none, none⟩
      (by intro m hm; injection hm with h; omega)
      (by intro t ht; simp at ht)
      (by intro l hl; simp at hl)

/-- C9: clamping a joint-angle vector of the model's joint count twice
gives the same result as clamping it once. -/
theorem clampAngles_idempotent (r : Robot α) (v : List α)
    (h : v.length = r.nJoints) :
    r.clampAngles (r.clampAngles v) = r.clampAngles v :=
  clampAngles_idem r v

/-- C9 witness at a concrete out-of-range vector. -/
theorem clampAngles_idempotent_witness :
    ([(20 : ℚ)].length = wrobot.nJoints) ∧
    wrobot.clampAngles (wrobot.clampAngles [20]) = wrobot.clampAngles [20] :=
  ⟨by decide, clampAngles_idempotent wrobot [20] (by decide)⟩

/-- C10: if the start angles respect the joint limits and the solver
reports convergence, the reported error is exactly the distance between
the target and the end-effector position of FK at the *returned* angle
vector, and that distance is strictly below the position tolerance. -/
theorem solveIK_converged_error_faithful (r : Robot α) (fcos fsin fsqrt : α → α)
    (target : Vec3 α) (start : List α) (opts : IKOpts α)
    (hstart : withinLimits r start)
    (hconv : (r.solveIK fcos fsin fsqrt target start opts).converged = true) :
    (r.solveIK fcos fsin fsqrt target start opts).error =
      v3Len fsqrt (v3Sub target (r.eePos fcos fsin
        (r.solveIK fcos fsin fsqrt target start opts).angles)) ∧
    (r.solveIK fcos fsin fsqrt target start opts).error < resolveTol opts.tol := by
  have hfix := clampAngles_of_withinLimits r start hstart
  exact ikLoop_converged r fcos fsin fsqrt target (resolveTol opts.tol)
    (resolveLambda opts.lam) (resolveMaxIter opts.maxIter) 0 start hfix hconv

/-- C10 witness: an in-limits start that converges immediately. -/
theorem solveIK_converged_error_witness :
    (withinLimits wrobot [0] ∧
     (wrobot.solveIK wcos wsin wsqrt ⟨1, 0, 0⟩ [0] ⟨none, none, none⟩).converged = true) ∧
    ((wrobot.solveIK wcos wsin wsqrt ⟨1, 0, 0⟩ [0] ⟨none, none, none⟩).error =
      v3Len wsqrt (v3Sub ⟨1, 0, 0⟩ (wrobot.eePos wcos wsin
        (wrobot.solveIK wcos wsin wsqrt ⟨1, 0, 0⟩ [0] ⟨none, none, none⟩).angles)) ∧
     (wrobot.solveIK wcos wsin wsqrt ⟨1, 0, 0⟩ [0] ⟨none, none, none⟩).error <
       resolveTol (none : Option ℚ)) :=
  ⟨⟨by decide, by decide⟩,
   solveIK_converged_error_faithful wrobot wcos wsin wsqrt ⟨1, 0, 0⟩ [0]
     ⟨none, none, none⟩ (by decide) (by decide)⟩

end Kin
